import Mathlib

/-!
Verification of the Human Behavior Emulation & Pacing Engine
(`internal/stealth` of the linkedin-automation repository).

Shallow embedding conventions:
* wall-clock instants and float64 quantities are modelled as `ℚ` (seconds);
* Go `int` is `ℤ`; Go's `int(x)` float-to-int conversion truncates toward
  zero and is modelled by `truncQ`;
* `math/rand` draws are explicit parameters: each `rand.Float64()` or
  `rand.Intn` consumed by a function becomes an input, so theorems
  quantifying over these inputs cover every random-stream outcome.
-/

namespace Stealth

/-- Go's `int(x)` conversion of a float: truncation toward zero.
`Int` division in Lean truncates toward zero, so `num / den` is exact. -/
def truncQ (q : ℚ) : ℤ :=
  q.num / (q.den : ℤ)

/- ### Rate limiter (ratelimit.go) -/

/-- `Limits` defines rate limits for different actions (ratelimit.go). -/
structure Limits where
  dailyLimit : ℤ
  hourlyLimit : ℤ
  minDelaySeconds : ℤ
  maxDelaySeconds : ℤ
deriving DecidableEq

/-- The `RateLimiter` state restricted to one action category:
`actionCounts[actionType]` (a list of timestamps, seconds) and
`cooldowns[actionType]` (`none` models a missing map key). -/
structure CategoryState where
  actionCounts : List ℚ
  cooldown : Option ℚ
deriving DecidableEq

/-- `countInWindow` counts actions within a time window: entries `t` with
`t.After(cutoff)` where `cutoff = now - window` (strict `>`). -/
def countInWindow (now : ℚ) (times : List ℚ) (window : ℚ) : ℕ :=
  times.countP (fun t => decide (now - window < t))

/-- `cleanOldEntries` removes entries older than 24 hours: keeps `t` with
`t.After(now - 24h)`. -/
def cleanOldEntries (now : ℚ) (times : List ℚ) : List ℚ :=
  times.filter (fun t => decide (now - 24 * 3600 < t))

/-- `CanPerform` (decision part): cooldown check first, then the hourly
window count against `HourlyLimit`, then the daily window count against
`DailyLimit`.  The Go method also stores the cleaned list back into the
map; that state effect is `cleanOldEntries`, treated separately. -/
def CanPerform (now : ℚ) (st : CategoryState) (limits : Limits) :
    Bool × String :=
  if (match st.cooldown with
      | some cooldownEnd => decide (now < cooldownEnd)
      | none => false) then
    (false, "in cooldown")
  else
    let counts := cleanOldEntries now st.actionCounts
    let hourlyCount := countInWindow now counts 3600
    if limits.hourlyLimit ≤ (hourlyCount : ℤ) then
      (false, "hourly limit reached")
    else
      let dailyCount := countInWindow now counts (24 * 3600)
      if limits.dailyLimit ≤ (dailyCount : ℤ) then
        (false, "daily limit reached")
      else
        (true, "")

/-- `RecordAction` appends `time.Now()` to the category's list (the
`nil`-map initialisation in the Go code is the empty list here). -/
def RecordAction (now : ℚ) (times : List ℚ) : List ℚ :=
  times ++ [now]

/-- `SetCooldown` sets the category's cooldown to `time.Now().Add(duration)`. -/
def SetCooldown (now duration : ℚ) (st : CategoryState) : CategoryState :=
  { st with cooldown := some (now + duration) }

/-- The spec's reading of `CanPerform`: denied if an active cooldown
exists; otherwise denied if the count of records within the trailing
1-hour window ≥ hourlyLimit; otherwise denied if the count within the
trailing 24-hour window ≥ dailyLimit; otherwise allowed.  The counts here
are taken on the raw record list (the spec does not mention cleaning). -/
def CanPerformSpec (now : ℚ) (st : CategoryState) (limits : Limits) :
    Bool × String :=
  if (match st.cooldown with
      | some cooldownEnd => decide (now < cooldownEnd)
      | none => false) then
    (false, "in cooldown")
  else if limits.hourlyLimit ≤ (countInWindow now st.actionCounts 3600 : ℤ) then
    (false, "hourly limit reached")
  else if limits.dailyLimit ≤ (countInWindow now st.actionCounts (24 * 3600) : ℤ) then
    (false, "daily limit reached")
  else
    (true, "")

/- ### Mouse controller (mouse.go) -/

/-- A 2D coordinate (`Point` in mouse.go). -/
structure Point where
  x : ℚ
  y : ℚ
deriving DecidableEq

/-- `cubicBezier`: B(t) = (1−t)³p0 + 3(1−t)²t·p1 + 3(1−t)t²·p2 + t³p3. -/
def cubicBezier (t p0 p1 p2 p3 : ℚ) : ℚ :=
  let mt := 1 - t
  mt * mt * mt * p0 + 3 * mt * mt * t * p1 + 3 * mt * t * t * p2 +
    t * t * t * p3

/-- The squared distance `(endX−startX)² + (endY−startY)²` whose square
root is `distance` in `generateBezierPath`. -/
def distSq (startX startY endX endY : ℚ) : ℚ :=
  (endX - startX) ^ 2 + (endY - startY) ^ 2

/-- The point count of `generateBezierPath`:
`numPoints := int(math.Max(20, distance/10))` with
`distance = √distSq ≥ 0`.  Since `⌊max(20, √d²/10)⌋ = max 20 ⌊√(d²/100)⌋`
and `⌊√x⌋ = Nat.sqrt ⌊x⌋` for `x ≥ 0`, this is expressible exactly on
rationals without a real square root. -/
def numPoints (startX startY endX endY : ℚ) : ℕ :=
  max 20 (Nat.sqrt (⌊distSq startX startY endX endY / 100⌋).toNat)

/-- `generateBezierPath` generates the points along the cubic Bézier
curve.  The two control points come from `generateControlPoints`, which
combines several `rand.Float64()` draws; they are taken as parameters
(`ctrl1`, `ctrl2`), so quantifying over them covers every random-stream
outcome.  `jitterX i`/`jitterY i` are the `(rand.Float64()−0.5)*2`
micro-jitter draws consumed at step `i`; the source adds them only when
`i > 0 && i < numPoints-1`. -/
def generateBezierPath (startX startY endX endY : ℚ)
    (ctrl1 ctrl2 : Point) (jitterX jitterY : ℕ → ℚ) : List Point :=
  let n := numPoints startX startY endX endY
  (List.range n).map fun (i : ℕ) =>
    let t : ℚ := (i : ℚ) / ((n : ℚ) - 1)
    let x := cubicBezier t startX ctrl1.x ctrl2.x endX
    let y := cubicBezier t startY ctrl1.y ctrl2.y endY
    if 0 < i ∧ i < n - 1 then
      { x := x + jitterX i, y := y + jitterY i }
    else
      { x := x, y := y }

/- ### Typing controller (typing.go) -/

/-- The characters of `strings.ContainsRune(".,!?;:", prev)`. -/
def punctuationMarks : List Char := ['.', ',', '!', '?', ';', ':']

/-- `commonPairs` from `calculateKeystrokeDelay`. -/
def commonPairs : List String :=
  ["th", "he", "in", "er", "an", "re", "on", "at", "en", "nd", "ti",
    "es", "or", "te", "of", "ed", "is", "it", "al", "ar", "st", "to",
    "nt", "ng", "se", "ha", "as", "ou", "io", "le", "ve", "co", "me",
    "de", "hi", "ri", "ro", "ic", "ne", "ea", "ra", "ce"]

/-- `strings.ToLower(string([]rune{prev, char}))`.  All table entries are
ASCII letters, so ASCII lowercasing decides membership in `commonPairs`
exactly as Go's Unicode lowercasing does. -/
def pairString (prev c : Char) : String :=
  String.mk [prev.toLower, c.toLower]

/-- The `rand` draws consumed by one `calculateKeystrokeDelay` call: one
`rand.Float64()` per multiplier rule (each consumed only if its rule
fires) plus the 2% mid-thought-pause trigger and magnitude. -/
structure KeystrokeRand where
  punctR : ℚ
  spaceR : ℚ
  pairR : ℚ
  pauseTrigger : ℚ
  pauseR : ℚ
deriving DecidableEq

/-- `calculateKeystrokeDelay`: starts from `multiplier := 1.0` and then
ASSIGNS (overwrites) the multiplier in sequence — punctuation rule, space
rule, common-bigram rule, and finally the 2% mid-thought pause — before
computing `int(float64(baseDelay) * multiplier)`.  `prev` is
`text[index-1]`, read only under an `index > 0` guard in the source, so
the `getD` default is never observable. -/
def calculateKeystrokeDelay (baseDelay : ℤ) (c : Char) (text : List Char)
    (index : ℕ) (r : KeystrokeRand) : ℤ :=
  let prev := text.getD (index - 1) (Char.ofNat 0)
  let mult0 : ℚ := 1.0
  let mult1 := if 0 < index ∧ prev ∈ punctuationMarks then
    1.5 + r.punctR * 0.5 else mult0
  let mult2 := if c = ' ' then 1.2 + r.spaceR * 0.3 else mult1
  let mult3 := if 0 < index ∧ pairString prev c ∈ commonPairs then
    0.7 + r.pairR * 0.2 else mult2
  let mult4 := if r.pauseTrigger < 0.02 then 2.0 + r.pauseR else mult3
  truncQ ((baseDelay : ℚ) * mult4)

/-- The multiplier as the spec words it: strict priority order,
first match wins, never combined. -/
def specPriorityMultiplier (c : Char) (text : List Char) (index : ℕ)
    (r : KeystrokeRand) : ℚ :=
  let prev := text.getD (index - 1) (Char.ofNat 0)
  if 0 < index ∧ prev ∈ punctuationMarks then 1.5 + r.punctR * 0.5
  else if c = ' ' then 1.2 + r.spaceR * 0.3
  else if 0 < index ∧ pairString prev c ∈ commonPairs then
    0.7 + r.pairR * 0.2
  else 1.0

/-- The delay as the spec words it: base × priority-multiplier ×
(pause-multiplier if the 2% pause triggered). -/
def specKeystrokeDelay (baseDelay : ℤ) (c : Char) (text : List Char)
    (index : ℕ) (r : KeystrokeRand) : ℤ :=
  let m := specPriorityMultiplier c text index r
  let m := if r.pauseTrigger < 0.02 then m * (2.0 + r.pauseR) else m
  truncQ ((baseDelay : ℚ) * m)

/-- The multiplier the code actually ends up with: sequential assignment
means the LAST matching rule wins, and a triggered mid-thought pause
REPLACES the multiplier instead of combining with it. -/
def lastMatchMultiplier (c : Char) (text : List Char) (index : ℕ)
    (r : KeystrokeRand) : ℚ :=
  let prev := text.getD (index - 1) (Char.ofNat 0)
  if r.pauseTrigger < 0.02 then 2.0 + r.pauseR
  else if 0 < index ∧ pairString prev c ∈ commonPairs then
    0.7 + r.pairR * 0.2
  else if c = ' ' then 1.2 + r.spaceR * 0.3
  else if 0 < index ∧ prev ∈ punctuationMarks then 1.5 + r.punctR * 0.5
  else 1.0

/-- The QWERTY keyboard-layout neighbor table of `getNearbyKey`
(`neighbors` in typing.go); keys absent from the Go map are `none`. -/
def neighbors : Char → Option (List Char)
  | 'q' => some ['w', 'a', '1', '2']
  | 'w' => some ['q', 'e', 's', 'a', '2', '3']
  | 'e' => some ['w', 'r', 'd', 's', '3', '4']
  | 'r' => some ['e', 't', 'f', 'd', '4', '5']
  | 't' => some ['r', 'y', 'g', 'f', '5', '6']
  | 'y' => some ['t', 'u', 'h', 'g', '6', '7']
  | 'u' => some ['y', 'i', 'j', 'h', '7', '8']
  | 'i' => some ['u', 'o', 'k', 'j', '8', '9']
  | 'o' => some ['i', 'p', 'l', 'k', '9', '0']
  | 'p' => some ['o', 'l', '0', '-']
  | 'a' => some ['q', 'w', 's', 'z']
  | 's' => some ['a', 'w', 'e', 'd', 'z', 'x']
  | 'd' => some ['s', 'e', 'r', 'f', 'x', 'c']
  | 'f' => some ['d', 'r', 't', 'g', 'c', 'v']
  | 'g' => some ['f', 't', 'y', 'h', 'v', 'b']
  | 'h' => some ['g', 'y', 'u', 'j', 'b', 'n']
  | 'j' => some ['h', 'u', 'i', 'k', 'n', 'm']
  | 'k' => some ['j', 'i', 'o', 'l', 'm', ',']
  | 'l' => some ['k', 'o', 'p', ',', '.']
  | 'z' => some ['a', 's', 'x']
  | 'x' => some ['z', 's', 'd', 'c']
  | 'c' => some ['x', 'd', 'f', 'v']
  | 'v' => some ['c', 'f', 'g', 'b']
  | 'b' => some ['v', 'g', 'h', 'n']
  | 'n' => some ['b', 'h', 'j', 'm']
  | 'm' => some ['n', 'j', 'k', ',']
  | _ => none

/-- `getNearbyKey`: looks up the lowercase form of the input in the
neighbor table; on a hit with a non-empty list it picks an entry
(`rand.Intn(len(nearby))` modelled as `pick % nearby.length`) and
preserves case; otherwise it returns the input character unchanged. -/
def getNearbyKey (c : Char) (pick : ℕ) : Char :=
  match neighbors c.toLower with
  | some nearby =>
    if 0 < nearby.length then
      let typo := nearby.getD (pick % nearby.length) c
      if c.isUpper then typo.toUpper else typo
    else c
  | none => c

/-- A keystroke event sent to the page element. -/
inductive Key where
  | char : Char → Key
  | backspace : Key
deriving DecidableEq

/-- `makeAndCorrectTypo` emits the nearby key, then a backspace, then the
intended character (the sleeps between them carry no data). -/
def makeAndCorrectTypo (intended : Char) (pick : ℕ) : List Key :=
  [Key.char (getNearbyKey intended pick), Key.backspace, Key.char intended]

/- ### Timing controller (timing.go) -/

/-- `normalRandom(mean, stdDev)` returns `mean + z*stdDev` where
`z = sqrt(-2 ln u1) * cos(2π u2)` is the Box–Muller standard-normal
sample.  `z` ranges over all of ℝ as `u1, u2` range over their draws, so
it is taken as an explicit parameter: quantifying over `z` covers every
random-stream outcome. -/
def normalRandom (mean stdDev z : ℚ) : ℚ :=
  mean + z * stdDev

/-- `RandomDelay` (the duration computation; the final `time.Sleep`
carries no data): bounds with `minSeconds >= maxSeconds` are reset to
1..3, the delay is sampled as `normalRandom((min+max)/2, (max−min)/4)`
and then clamped into `[min, max]`. -/
def RandomDelay (minSeconds maxSeconds : ℤ) (z : ℚ) : ℚ :=
  let minS : ℤ := if maxSeconds ≤ minSeconds then 1 else minSeconds
  let maxS : ℤ := if maxSeconds ≤ minSeconds then 3 else maxSeconds
  let mean : ℚ := ((minS : ℚ) + (maxS : ℚ)) / 2
  let stdDev : ℚ := ((maxS : ℚ) - (minS : ℚ)) / 4
  let delay := normalRandom mean stdDev z
  let delay := if delay < (minS : ℚ) then (minS : ℚ) else delay
  let delay := if (maxS : ℚ) < delay then (maxS : ℚ) else delay
  delay

/- ### Scroll controller (scroll.go) -/

/-- A single scroll step (`scrollStep` in scroll.go). -/
structure scrollStep where
  position : ℤ
  delayMs : ℤ
deriving DecidableEq

/-- `calculateScrollSteps`: `numSteps = int(math.Max(5, absDistance/50))`
capped at 30 (for a nonnegative float the truncation is the floor, so
this is `min 30 (max 5 (absDistance / 50))` with natural division);
positions use the ease-out cubic `1 − (1−t)³` at `t = (i+1)/numSteps`.
The per-step delay divides a random base by a `sin(π t)` speed factor;
being irrational it is carried by the abstract per-step function
`delayOf`, which the claims never constrain. -/
def calculateScrollSteps (startY endY : ℤ) (delayOf : ℕ → ℤ) :
    List scrollStep :=
  let distance := endY - startY
  let absDistance := distance.natAbs
  let numSteps := min 30 (max 5 (absDistance / 50))
  (List.range numSteps).map fun (i : ℕ) =>
    let t : ℚ := ((i : ℚ) + 1) / (numSteps : ℚ)
    let eased : ℚ := 1 - (1 - t) ^ 3
    { position := startY + truncQ ((distance : ℚ) * eased),
      delayMs := delayOf i }

/-- `ScrollTo` (step-generation part): returns no steps when the distance
to the target is under 10 px, otherwise the steps of
`calculateScrollSteps`. -/
def ScrollToSteps (currentY targetY : ℤ) (delayOf : ℕ → ℤ) :
    List scrollStep :=
  let distance := targetY - currentY
  if distance.natAbs < 10 then []
  else calculateScrollSteps currentY targetY delayOf

/- ### Scheduler (scheduler.go) -/

/-- The schedule-relevant part of `config.StealthConfig`. -/
structure SchedulerConfig where
  businessHoursOnly : Bool
  startHour : ℤ
  endHour : ℤ
deriving DecidableEq

/-- Day of the week (`time.Weekday`). -/
inductive Weekday where
  | sunday
  | monday
  | tuesday
  | wednesday
  | thursday
  | friday
  | saturday
deriving DecidableEq

/-- `IsWithinSchedule`: always true when gating is disabled; false when
the current hour is outside `[startHour, endHour)`; on Saturday/Sunday
within the range, true iff this call's fresh `rand.Float64()` draw
(`weekendR`) is below 0.2; true on weekdays within the range.  The
scheduler keeps no state for this decision, so each call depends only on
its own clock reading and draw. -/
def IsWithinSchedule (cfg : SchedulerConfig) (hour : ℤ) (weekday : Weekday)
    (weekendR : ℚ) : Bool :=
  if !cfg.businessHoursOnly then
    true
  else if hour < cfg.startHour ∨ cfg.endHour ≤ hour then
    false
  else if weekday = Weekday.saturday ∨ weekday = Weekday.sunday then
    decide (weekendR < 0.2)
  else
    true

lemma cubicBezier_zero (p0 p1 p2 p3 : ℚ) : cubicBezier 0 p0 p1 p2 p3 = p0 := by
  unfold cubicBezier
  norm_num

lemma cubicBezier_one (p0 p1 p2 p3 : ℚ) : cubicBezier 1 p0 p1 p2 p3 = p3 := by
  unfold cubicBezier
  norm_num

lemma twenty_le_numPoints (startX startY endX endY : ℚ) :
    20 ≤ numPoints startX startY endX endY :=
  le_max_left _ _

lemma countInWindow_cleanOldEntries (now : ℚ) (l : List ℚ) (w : ℚ)
    (hw : w ≤ 24 * 3600) :
    countInWindow now (cleanOldEntries now l) w = countInWindow now l w := by
  unfold countInWindow cleanOldEntries
  rw [List.countP_filter]
  congr 1
  funext t
  by_cases h : now - w < t
  · have h24 : now - 24 * 3600 < t := lt_of_le_of_lt (by linarith) h
    simp [h, h24]
  · simp [h]

/-- C1: `CanPerform` checks, in order, cooldown, then the trailing 1-hour
count against `hourlyLimit`, then the trailing 24-hour count against
`dailyLimit`, returning the reason of the first condition that fires and
`(true, "")` when none fires (i.e. it agrees with the spec's decision
procedure on every state); in particular, with `hourlyLimit = 10`,
10 recorded actions at the current instant and no cooldown, the next
`CanPerform` call returns `(false, "hourly limit reached")`. -/
theorem CanPerform_order_and_hourly_scenario :
    (∀ (now : ℚ) (st : CategoryState) (limits : Limits),
      CanPerform now st limits = CanPerformSpec now st limits) ∧
    (∀ (now : ℚ) (limits : Limits), limits.hourlyLimit = 10 →
      CanPerform now ⟨List.replicate 10 now, none⟩ limits =
        (false, "hourly limit reached")) := by
  constructor
  · intro now st limits
    simp only [CanPerform, CanPerformSpec,
      countInWindow_cleanOldEntries now st.actionCounts 3600 (by norm_num),
      countInWindow_cleanOldEntries now st.actionCounts (24 * 3600) le_rfl]
  · intro now limits h10
    unfold CanPerform
    have hcount : countInWindow now
        (cleanOldEntries now (List.replicate 10 now)) 3600 = 10 := by
      unfold countInWindow cleanOldEntries
      have h24 : now - 24 * 3600 < now := by linarith
      have h1 : now - 3600 < now := by linarith
      simp [h24, h1]
    simp only [hcount, h10]
    norm_num

/-- Witness for C1 at a concrete state: ten actions recorded at `t = 0`
with hourly limit 10 and no cooldown are denied with the hourly reason. -/
theorem CanPerform_hourly_scenario_witness :
    CanPerform 0 ⟨List.replicate 10 0, none⟩ ⟨50, 10, 30, 90⟩ =
      (false, "hourly limit reached") :=
  CanPerform_order_and_hourly_scenario.2 0 ⟨50, 10, 30, 90⟩ rfl

/-- C2: `SetCooldown(category, duration)` at time `t0` records the absolute
instant `t0 + duration`; `CanPerform` at any time strictly before that
instant returns `(false, "in cooldown")`, and at any time at or after it
the (undeleted) cooldown entry no longer influences `CanPerform` at all:
the call behaves exactly as if the cooldown entry were absent. -/
theorem SetCooldown_blocks_until_end (t0 d : ℚ) (st : CategoryState)
    (limits : Limits) (t : ℚ) :
    (SetCooldown t0 d st).cooldown = some (t0 + d) ∧
    (t < t0 + d →
      CanPerform t (SetCooldown t0 d st) limits = (false, "in cooldown")) ∧
    (t0 + d ≤ t →
      CanPerform t (SetCooldown t0 d st) limits =
        CanPerform t { st with cooldown := none } limits) := by
  refine ⟨rfl, ?_, ?_⟩
  · intro hlt
    unfold CanPerform SetCooldown
    simp [hlt]
  · intro hge
    unfold CanPerform SetCooldown
    simp [not_lt.mpr hge]

/-- Witness for C2: a cooldown of length 5 set at `t0 = 0` blocks a call at
`t = 4` and no longer blocks a call at `t = 5`. -/
theorem SetCooldown_blocks_until_end_witness :
    CanPerform 4 (SetCooldown 0 5 ⟨[], none⟩) ⟨50, 10, 30, 90⟩ =
      (false, "in cooldown") ∧
    CanPerform 5 (SetCooldown 0 5 ⟨[], none⟩) ⟨50, 10, 30, 90⟩ =
      CanPerform 5 ⟨[], none⟩ ⟨50, 10, 30, 90⟩ :=
  ⟨(SetCooldown_blocks_until_end 0 5 ⟨[], none⟩ ⟨50, 10, 30, 90⟩ 4).2.1
      (by norm_num),
    (SetCooldown_blocks_until_end 0 5 ⟨[], none⟩ ⟨50, 10, 30, 90⟩ 5).2.2
      (by norm_num)⟩

/-- C9: the per-category timestamp list stays sorted ascending:
`RecordAction` appends the current time (which is at or after every
already-recorded time, the clock being monotone), and the lazy pruning
`cleanOldEntries` filters the list, preserving sortedness and the relative
order of the surviving entries (it yields a sublist). -/
theorem actionCounts_sorted_invariant (now : ℚ) (l : List ℚ) :
    (l.Sorted (· ≤ ·) → (∀ x ∈ l, x ≤ now) →
      (RecordAction now l).Sorted (· ≤ ·)) ∧
    (l.Sorted (· ≤ ·) → (cleanOldEntries now l).Sorted (· ≤ ·)) ∧
    (cleanOldEntries now l).Sublist l := by
  refine ⟨?_, ?_, ?_⟩
  · intro hs hle
    unfold RecordAction
    exact List.pairwise_append.mpr ⟨hs, List.sorted_singleton now,
      fun a ha b hb => by
        rw [List.mem_singleton] at hb
        exact hb ▸ hle a ha⟩
  · intro hs
    exact hs.filter _
  · exact List.filter_sublist l

/-- Witness for C9: recording `now = 3` onto the sorted list `[1, 2]` and
pruning it keeps a sorted (sub)list. -/
theorem actionCounts_sorted_invariant_witness :
    (RecordAction 3 [1, 2]).Sorted (· ≤ ·) ∧
    (cleanOldEntries 3 [1, 2]).Sorted (· ≤ ·) ∧
    (cleanOldEntries 3 [1, 2]).Sublist [1, 2] :=
  ⟨(actionCounts_sorted_invariant 3 [1, 2]).1 (by decide)
      (by intro x hx; fin_cases hx <;> norm_num),
    (actionCounts_sorted_invariant 3 [1, 2]).2.1 (by decide),
    (actionCounts_sorted_invariant 3 [1, 2]).2.2⟩

/-- C3: for every start/end pair with start ≠ end, every choice of control
points and every jitter outcome, the generated path is non-empty, its
first point is exactly the start, its last point is exactly the end, and
jitter is added only at interior indices `0 < i < N−1` (interior points
are the Bézier value plus the jitter draw; the two endpoints get none). -/
theorem generateBezierPath_endpoints_exact
    (startX startY endX endY : ℚ) (ctrl1 ctrl2 : Point)
    (jitterX jitterY : ℕ → ℚ)
    (_hne : (startX, startY) ≠ (endX, endY)) :
    generateBezierPath startX startY endX endY ctrl1 ctrl2 jitterX jitterY
      ≠ [] ∧
    (generateBezierPath startX startY endX endY ctrl1 ctrl2 jitterX
      jitterY).head? = some ⟨startX, startY⟩ ∧
    (generateBezierPath startX startY endX endY ctrl1 ctrl2 jitterX
      jitterY).getLast? = some ⟨endX, endY⟩ ∧
    (∀ i, 0 < i → i < numPoints startX startY endX endY - 1 →
      (generateBezierPath startX startY endX endY ctrl1 ctrl2 jitterX
        jitterY)[i]? = some
        ⟨cubicBezier ((i : ℚ) /
            ((numPoints startX startY endX endY : ℚ) - 1))
            startX ctrl1.x ctrl2.x endX + jitterX i,
          cubicBezier ((i : ℚ) /
            ((numPoints startX startY endX endY : ℚ) - 1))
            startY ctrl1.y ctrl2.y endY + jitterY i⟩) := by
  have hn20 : 20 ≤ numPoints startX startY endX endY :=
    twenty_le_numPoints startX startY endX endY
  set n := numPoints startX startY endX endY with hn
  have hnpos : 0 < n := lt_of_lt_of_le (by norm_num) hn20
  have hcast : (19 : ℚ) ≤ (n : ℚ) - 1 := by
    have : (20 : ℚ) ≤ (n : ℚ) := by exact_mod_cast hn20
    linarith
  have hden : ((n : ℚ) - 1) ≠ 0 := by linarith
  have hlen : (generateBezierPath startX startY endX endY ctrl1 ctrl2
      jitterX jitterY).length = n := by
    simp [generateBezierPath, hn]
  refine ⟨?_, ?_, ?_, ?_⟩
  · intro hcontra
    rw [hcontra] at hlen
    simp at hlen
    omega
  · rw [List.head?_eq_getElem?]
    simp only [generateBezierPath, ← hn, List.getElem?_map,
      List.getElem?_range, hnpos, if_pos]
    simp [cubicBezier_zero]
  · rw [List.getLast?_eq_getElem?, hlen]
    have hsub : n - 1 < n := by omega
    simp only [generateBezierPath, ← hn, List.getElem?_map,
      List.getElem?_range, hsub, if_pos]
    have hnot : ¬(0 < n - 1 ∧ n - 1 < n - 1) := by omega
    have htcast : ((n - 1 : ℕ) : ℚ) = (n : ℚ) - 1 := by
      have h1 : 1 ≤ n := by omega
      rw [Nat.cast_sub h1]
      norm_num
    rw [Option.map_some', if_neg hnot, htcast, div_self hden]
    simp [cubicBezier_one]
  · intro i hipos hilt
    have hin : i < n := by omega
    simp only [generateBezierPath, ← hn, List.getElem?_map,
      List.getElem?_range, hin, if_pos]
    have hcond : 0 < i ∧ i < n - 1 := ⟨hipos, hilt⟩
    simp [hcond]

/-- Witness for C3 at start (0,0), end (3,4): the head of the path is
exactly the start and the last point exactly the end. -/
theorem generateBezierPath_endpoints_exact_witness :
    (generateBezierPath 0 0 3 4 ⟨1, 1⟩ ⟨2, 2⟩ (fun _ => 1)
      (fun _ => 1)).head? = some ⟨0, 0⟩ ∧
    (generateBezierPath 0 0 3 4 ⟨1, 1⟩ ⟨2, 2⟩ (fun _ => 1)
      (fun _ => 1)).getLast? = some ⟨3, 4⟩ :=
  ⟨(generateBezierPath_endpoints_exact 0 0 3 4 ⟨1, 1⟩ ⟨2, 2⟩ _ _
      (by decide)).2.1,
    (generateBezierPath_endpoints_exact 0 0 3 4 ⟨1, 1⟩ ⟨2, 2⟩ _ _
      (by decide)).2.2.1⟩

/-- C4 counterexample: at distance exactly 0 the generator does NOT return
a single-step path — it returns the usual `max(20, ⌊distance/10⌋) = 20`
points (there is no zero-distance special case in `generateBezierPath`
or `MoveTo`). -/
theorem zeroDistance_path_not_single_step :
    (generateBezierPath 0 0 0 0 ⟨0, 0⟩ ⟨0, 0⟩ (fun _ => 0)
      (fun _ => 0)).length = 20 ∧ (20 : ℕ) ≠ 1 := by
  refine ⟨?_, by decide⟩
  have h : distSq 0 0 0 0 = 0 := by
    unfold distSq
    ring
  simp [generateBezierPath, numPoints, h]

/-- C4 amended: when the distance between start and end is exactly 0 the
path generator takes no special branch: it produces the usual
`N = max(20, ⌊distance/10⌋) = 20` points, not a single-step path. -/
theorem zeroDistance_path_length_twenty (startX startY : ℚ)
    (ctrl1 ctrl2 : Point) (jitterX jitterY : ℕ → ℚ) :
    (generateBezierPath startX startY startX startY ctrl1 ctrl2 jitterX
      jitterY).length = 20 := by
  have h : distSq startX startY startX startY = 0 := by
    unfold distSq
    ring
  simp [generateBezierPath, numPoints, h]

/-- C5 counterexample: the keystroke multiplier is NOT chosen by
first-match-wins priority, and a triggered mid-thought pause is NOT
combined multiplicatively.  With previous character `.` and current
character a space (pause untriggered), the code's space rule overwrites
the punctuation rule: delay 120 instead of the spec's 150.  With previous
character `.` and a triggered pause, the pause replaces the punctuation
multiplier: delay 200 instead of the spec's combined 300. -/
theorem calculateKeystrokeDelay_not_first_match :
    calculateKeystrokeDelay 100 ' ' (['.', ' ']) 1 ⟨0, 0, 0, 1/2, 0⟩ = 120 ∧
    specKeystrokeDelay 100 ' ' (['.', ' ']) 1 ⟨0, 0, 0, 1/2, 0⟩ = 150 ∧
    calculateKeystrokeDelay 100 'a' (['.', 'a']) 1 ⟨0, 0, 0, 0, 0⟩ = 200 ∧
    specKeystrokeDelay 100 'a' (['.', 'a']) 1 ⟨0, 0, 0, 0, 0⟩ = 300 ∧
    (120 : ℤ) ≠ 150 := by
  refine ⟨?_, ?_, ?_, ?_, by decide⟩ <;>
    norm_num +decide [calculateKeystrokeDelay, specKeystrokeDelay,
      specPriorityMultiplier, truncQ, pairString, punctuationMarks,
      commonPairs]

/-- C5 amended: the rules are evaluated in sequence with plain
assignment, so the LAST matching rule determines the multiplier
(bigram over space over punctuation), and a triggered 2% mid-thought
pause REPLACES the multiplier with 2.0–3.0 rather than multiplying it;
the final delay is base × that single multiplier, truncated to int. -/
theorem calculateKeystrokeDelay_last_match_wins (baseDelay : ℤ) (c : Char)
    (text : List Char) (index : ℕ) (r : KeystrokeRand) :
    calculateKeystrokeDelay baseDelay c text index r =
      truncQ ((baseDelay : ℚ) * lastMatchMultiplier c text index r) := by
  unfold calculateKeystrokeDelay lastMatchMultiplier
  split_ifs <;> rfl

/-- C10: a character whose lowercase form is absent from the QWERTY
adjacency table is returned unchanged by `getNearbyKey`, so the simulated
typo-and-correction for it emits intended character, backspace, intended
character — never a wrong key. -/
theorem getNearbyKey_untabulated (c : Char) (pick : ℕ)
    (h : neighbors c.toLower = none) :
    getNearbyKey c pick = c ∧
    makeAndCorrectTypo c pick =
      [Key.char c, Key.backspace, Key.char c] := by
  unfold makeAndCorrectTypo getNearbyKey
  rw [h]
  exact ⟨rfl, rfl⟩

/-- Witness for C10 at the digit `5` (its lowercase form `5` has no
table entry). -/
theorem getNearbyKey_untabulated_witness :
    getNearbyKey (Char.ofNat 53) 0 = Char.ofNat 53 ∧
    makeAndCorrectTypo (Char.ofNat 53) 0 =
      [Key.char (Char.ofNat 53), Key.backspace, Key.char (Char.ofNat 53)] :=
  getNearbyKey_untabulated (Char.ofNat 53) 0 (by decide)

/-- C6: for all bounds with `min < max` and every Box–Muller outcome, the
clamped `RandomDelay` value lies in the closed interval `[min, max]`. -/
theorem RandomDelay_in_bounds (minSeconds maxSeconds : ℤ) (z : ℚ)
    (h : minSeconds < maxSeconds) :
    (minSeconds : ℚ) ≤ RandomDelay minSeconds maxSeconds z ∧
    RandomDelay minSeconds maxSeconds z ≤ (maxSeconds : ℚ) := by
  have hq : (minSeconds : ℚ) < (maxSeconds : ℚ) := by exact_mod_cast h
  have hnot : ¬(maxSeconds ≤ minSeconds) := not_le.mpr h
  unfold RandomDelay normalRandom
  rw [if_neg hnot, if_neg hnot]
  dsimp only
  split_ifs <;> constructor <;> linarith

/-- Witness for C6 at bounds 2..5 with an extreme normal sample. -/
theorem RandomDelay_in_bounds_witness :
    ((2 : ℤ) : ℚ) ≤ RandomDelay 2 5 100 ∧
    RandomDelay 2 5 100 ≤ ((5 : ℤ) : ℚ) :=
  RandomDelay_in_bounds 2 5 100 (by decide)

/-- C7: when `|targetY − currentY| < 10` no scroll steps are generated
(in particular from 100 to 95); otherwise the number of steps is
`clamp(max(5, |targetY − currentY| / 50), 5, 30)`, always within
`[5, 30]`. -/
theorem ScrollToSteps_count (currentY targetY : ℤ) (delayOf : ℕ → ℤ) :
    ((targetY - currentY).natAbs < 10 →
      ScrollToSteps currentY targetY delayOf = []) ∧
    (10 ≤ (targetY - currentY).natAbs →
      (ScrollToSteps currentY targetY delayOf).length =
        min 30 (max 5 ((targetY - currentY).natAbs / 50)) ∧
      5 ≤ (ScrollToSteps currentY targetY delayOf).length ∧
      (ScrollToSteps currentY targetY delayOf).length ≤ 30) ∧
    ScrollToSteps 100 95 delayOf = [] := by
  refine ⟨?_, ?_, ?_⟩
  · intro h
    unfold ScrollToSteps
    rw [if_pos h]
  · intro h
    have hnot : ¬((targetY - currentY).natAbs < 10) := not_lt.mpr h
    have hlen : (ScrollToSteps currentY targetY delayOf).length =
        min 30 (max 5 ((targetY - currentY).natAbs / 50)) := by
      unfold ScrollToSteps calculateScrollSteps
      rw [if_neg hnot]
      simp
    refine ⟨hlen, ?_, ?_⟩ <;> rw [hlen] <;> omega
  · unfold ScrollToSteps
    norm_num

/-- Witness for C7: a 5-px move produces no steps; a 1000-px move
produces `min 30 (max 5 (1000/50)) = 20` steps. -/
theorem ScrollToSteps_count_witness :
    ScrollToSteps 100 95 (fun _ => 0) = [] ∧
    (ScrollToSteps 0 1000 (fun _ => 0)).length = 20 :=
  ⟨(ScrollToSteps_count 100 95 (fun _ => 0)).1 (by decide),
    by
      have h := ((ScrollToSteps_count 0 1000 (fun _ => 0)).2.1
        (by decide)).1
      simpa using h⟩

/-- C8: `IsWithinSchedule` is true whenever gating is disabled; with
gating enabled it is false outside `[startHour, endHour)` regardless of
the day, true on weekdays inside the range, and on Saturday/Sunday inside
the range it is true exactly when the call's own fresh 20% draw fires. -/
theorem IsWithinSchedule_cases (cfg : SchedulerConfig) (hour : ℤ)
    (w : Weekday) (r : ℚ) :
    (cfg.businessHoursOnly = false →
      IsWithinSchedule cfg hour w r = true) ∧
    (cfg.businessHoursOnly = true →
      (hour < cfg.startHour ∨ cfg.endHour ≤ hour) →
      IsWithinSchedule cfg hour w r = false) ∧
    (cfg.businessHoursOnly = true → cfg.startHour ≤ hour →
      hour < cfg.endHour → w ≠ Weekday.saturday → w ≠ Weekday.sunday →
      IsWithinSchedule cfg hour w r = true) ∧
    (cfg.businessHoursOnly = true → cfg.startHour ≤ hour →
      hour < cfg.endHour → (w = Weekday.saturday ∨ w = Weekday.sunday) →
      (IsWithinSchedule cfg hour w r = true ↔ r < 0.2)) := by
  refine ⟨?_, ?_, ?_, ?_⟩
  · intro hoff
    unfold IsWithinSchedule
    simp [hoff]
  · intro hon hout
    unfold IsWithinSchedule
    simp [hon, hout]
  · intro hon hlo hhi hsat hsun
    have hin : ¬(hour < cfg.startHour ∨ cfg.endHour ≤ hour) := by
      push_neg
      exact ⟨hlo, hhi⟩
    unfold IsWithinSchedule
    simp [hon, hin, hsat, hsun]
  · intro hon hlo hhi hwe
    have hin : ¬(hour < cfg.startHour ∨ cfg.endHour ≤ hour) := by
      push_neg
      exact ⟨hlo, hhi⟩
    unfold IsWithinSchedule
    simp [hon, hin, hwe]

/-- Witness for C8: gating disabled is always true at 3 am Monday; a
Saturday 10 am call inside 9..17 with draw 0.1 is within schedule iff
0.1 < 0.2. -/
theorem IsWithinSchedule_cases_witness :
    IsWithinSchedule ⟨false, 9, 17⟩ 3 Weekday.monday 0 = true ∧
    (IsWithinSchedule ⟨true, 9, 17⟩ 10 Weekday.saturday (1/10) = true ↔
      (1/10 : ℚ) < 0.2) :=
  ⟨(IsWithinSchedule_cases ⟨false, 9, 17⟩ 3 Weekday.monday 0).1 rfl,
    (IsWithinSchedule_cases ⟨true, 9, 17⟩ 10 Weekday.saturday
        (1/10)).2.2.2 rfl (by decide) (by decide) (Or.inl rfl)⟩

end Stealth
